import Mathlib

/-!
Verification development for the core of the use-mutable-source repository:
the equality primitives (objectIs.ts, shallowEqual.ts), the versioned Slice
(withContract/slice.ts), the lazy source factory (useFactory.ts), and the
snapshot synchronization hooks of the withContract and withSubscription
families.  JavaScript values are shallowly embedded; machine behaviour that
the claims depend on (signed zeros, NaN, the null marker of the factory,
reentrant listener notification) is modelled explicitly.
-/

namespace UseMutableSource

/-- JavaScript numbers as needed by the equality primitive: NaN, the two
infinities, negative zero, and finite values modelled as rationals.  The
constructor application of fin at 0 stands for positive zero. -/
inductive JSNum where
  | nan
  | posInf
  | negInf
  | negZero
  | fin (q : Rat)
  deriving DecidableEq, Repr

/-- JavaScript values: numbers, strings, booleans, null, undefined, and
objects identified by a heap reference.  Arrays are objects whose keys are
numeric strings. -/
inductive JSVal where
  | num (n : JSNum)
  | str (s : String)
  | boolean (b : Bool)
  | null
  | undefined
  | obj (id : Nat)
  deriving DecidableEq, Repr

/-- Strict equality on numbers, the numeric part of the JavaScript operator
of three equal signs: NaN compares unequal to everything, negative zero
compares equal to positive zero, finite values compare as rationals. -/
def JSNum.strictEq : JSNum → JSNum → Bool
  | .nan, _ => false
  | _, .nan => false
  | .posInf, .posInf => true
  | .negInf, .negInf => true
  | .negZero, .negZero => true
  | .negZero, .fin q => q == 0
  | .fin q, .negZero => q == 0
  | .fin q, .fin r => q == r
  | _, _ => false

/-- Strict equality of JavaScript values, the operator of three equal
signs: no coercion, objects compared by reference identity. -/
def strictEq : JSVal → JSVal → Bool
  | .num a, .num b => a.strictEq b
  | .str a, .str b => a == b
  | .boolean a, .boolean b => a == b
  | .null, .null => true
  | .undefined, .undefined => true
  | .obj i, .obj j => i == j
  | _, _ => false

/-- Reciprocal of a JavaScript number, as computed by dividing 1 by it:
1 by positive zero is positive infinity, 1 by negative zero is negative
infinity. -/
def JSNum.oneDiv : JSNum → JSNum
  | .nan => .nan
  | .posInf => .fin 0
  | .negInf => .negZero
  | .negZero => .negInf
  | .fin q => if q = 0 then .posInf else .fin q⁻¹

/-- Reciprocal at the value level.  In the polyfill the division is only
reached under the guard that the operand is strictly equal to 0, which
forces a numeric zero, so the coercing cases for non-numbers are never
exercised there; they are collapsed to NaN. -/
def oneDiv : JSVal → JSVal
  | .num n => .num n.oneDiv
  | _ => .num .nan

/-- Transcription of the function is of objectIs.ts, the Object.is
polyfill taken from React:
(x === y and (x is not 0 or 1 over x === 1 over y)) or (x is not x and
y is not y). -/
def is (x y : JSVal) : Bool :=
  (strictEq x y && (!strictEq x (.num (.fin 0)) || strictEq (oneDiv x) (oneDiv y)))
    || (!strictEq x x && !strictEq y y)

/-- Recognizer for the NaN value. -/
def isNaNv : JSVal → Bool
  | .num .nan => true
  | _ => false

/-- Recognizer for positive zero. -/
def isPosZero : JSVal → Bool
  | .num (.fin q) => q == 0
  | _ => false

/-- Recognizer for negative zero. -/
def isNegZero : JSVal → Bool
  | .num .negZero => true
  | _ => false

/-- Modelled from the spec: the ECMAScript SameValue algorithm.  Both NaN
gives true, zeros of opposite signs give false, anything else is strict
equality. -/
def sameValueSpec (x y : JSVal) : Bool :=
  if isNaNv x && isNaNv y then true
  else if (isPosZero x && isNegZero y) || (isNegZero x && isPosZero y) then false
  else strictEq x y

/-- The is polyfill agrees with the SameValue algorithm on every pair of
values. -/
theorem is_eq_sameValue (x y : JSVal) : is x y = sameValueSpec x y := by
  cases x with
  | num n =>
    cases y with
    | num m =>
      cases n with
      | fin q =>
        cases m with
        | fin r =>
          by_cases hq : q = 0 <;> by_cases hr : r = 0 <;>
            simp [is, sameValueSpec, strictEq, JSNum.strictEq, oneDiv, JSNum.oneDiv,
              isNaNv, isPosZero, isNegZero, hq, hr]
          exact fun h => hr h.symm
        | _ =>
          by_cases hq : q = 0 <;>
            simp [is, sameValueSpec, strictEq, JSNum.strictEq, oneDiv, JSNum.oneDiv,
              isNaNv, isPosZero, isNegZero, hq]
      | _ =>
        cases m with
        | fin r =>
          by_cases hr : r = 0 <;>
            simp [is, sameValueSpec, strictEq, JSNum.strictEq, oneDiv, JSNum.oneDiv,
              isNaNv, isPosZero, isNegZero, hr]
        | _ =>
          simp [is, sameValueSpec, strictEq, JSNum.strictEq, oneDiv, JSNum.oneDiv,
            isNaNv, isPosZero, isNegZero]
    | _ =>
      cases n <;>
        simp [is, sameValueSpec, strictEq, JSNum.strictEq, oneDiv, JSNum.oneDiv,
          isNaNv, isPosZero, isNegZero]
  | _ =>
    cases y with
    | num m =>
      cases m <;>
        simp [is, sameValueSpec, strictEq, JSNum.strictEq, oneDiv, JSNum.oneDiv,
          isNaNv, isPosZero, isNegZero]
    | _ =>
      simp [is, sameValueSpec, strictEq, JSNum.strictEq, oneDiv, JSNum.oneDiv,
        isNaNv, isPosZero, isNegZero]

/-- A heap assigns to every object identifier its list of own enumerable
properties, in insertion order, as key and value pairs. -/
def Heap : Type := Nat → List (String × JSVal)

/-- Object.keys of the object behind identifier i: its own enumerable key
names in order. -/
def objKeys (h : Heap) (i : Nat) : List String :=
  (h i).map Prod.fst

/-- Object.prototype.hasOwnProperty.call for the object behind identifier
i and the key k. -/
def hasOwn (h : Heap) (i : Nat) (k : String) : Bool :=
  (objKeys h i).contains k

/-- Property read on the object behind identifier i; a missing key reads
as undefined. -/
def getProp (h : Heap) (i : Nat) (k : String) : JSVal :=
  match (h i).find? (fun p => p.1 == k) with
  | some p => p.2
  | none => .undefined

/-- The typeof operator yields the string object exactly on object
references and on null. -/
def typeofIsObject : JSVal → Bool
  | .obj _ => true
  | .null => true
  | _ => false

/-- Transcription of shallowEqual from shallowEqual.ts: true if is gives
true; false when either argument fails the typeof object test or is null;
otherwise compare key counts and then, for every key of the first object,
require the key on the second object and is-equality of the two property
values.  The early-return loop of the source is the all combinator. -/
def shallowEqual (h : Heap) (a b : JSVal) : Bool :=
  if is a b then true
  else if !typeofIsObject a || strictEq a .null
      || !typeofIsObject b || strictEq b .null then false
  else
    match a, b with
    | .obj i, .obj j =>
      if (objKeys h i).length != (objKeys h j).length then false
      else (objKeys h i).all fun k => hasOwn h j k && is (getProp h i k) (getProp h j k)
    | _, _ => false

/-- Modelled from the spec: shallowEqual is true if SameValue holds; else
false unless both arguments are non-null objects; else true exactly when
the two objects have the same number of own enumerable keys, every key of
the first exists on the second, and every corresponding value pair is
SameValue equal. -/
def shallowEqualSpec (h : Heap) (a b : JSVal) : Bool :=
  sameValueSpec a b ||
    match a, b with
    | .obj i, .obj j =>
      decide ((objKeys h i).length = (objKeys h j).length)
        && (objKeys h i).all fun k =>
            hasOwn h j k && sameValueSpec (getProp h i k) (getProp h j k)
    | _, _ => false

/-- The implementation of shallowEqual agrees with its specification shape
on every heap and every pair of values. -/
theorem shallowEqual_eq_spec (h : Heap) (a b : JSVal) :
    shallowEqual h a b = shallowEqualSpec h a b := by
  by_cases hiseq : is a b
  · have hsv : sameValueSpec a b = true := by rw [← is_eq_sameValue]; exact hiseq
    simp [shallowEqual, shallowEqualSpec, hiseq, hsv]
  · have hsv : sameValueSpec a b = false := by
      rw [← is_eq_sameValue]; exact Bool.eq_false_iff.mpr hiseq
    cases a <;> cases b <;>
      simp [shallowEqual, shallowEqualSpec, hiseq, hsv, typeofIsObject, strictEq,
        is_eq_sameValue]

/-- Reflexivity of the is polyfill: every value, NaN and the zeros
included, is is-equal to itself. -/
theorem is_refl (x : JSVal) : is x x = true := by
  cases x with
  | num n =>
    cases n with
    | fin q =>
      by_cases hq : q = 0 <;>
        simp [is, strictEq, JSNum.strictEq, oneDiv, JSNum.oneDiv, hq]
    | _ => simp [is, strictEq, JSNum.strictEq, oneDiv, JSNum.oneDiv]
  | _ => simp [is, strictEq]

/-- Example heap: objects 0 and 1 are two copies of a record with key a
bound to 1, object 2 adds key b bound to 2, objects 3 and 4 are two
copies of the array holding 1 and 2 (numeric string keys). -/
def exHeap : Heap := fun i =>
  if i = 0 then [("a", .num (.fin 1))]
  else if i = 1 then [("a", .num (.fin 1))]
  else if i = 2 then [("a", .num (.fin 1)), ("b", .num (.fin 2))]
  else if i = 3 then [("0", .num (.fin 1)), ("1", .num (.fin 2))]
  else if i = 4 then [("0", .num (.fin 1)), ("1", .num (.fin 2))]
  else []

/-- C8: shallowEqual returns true if sameValue holds, otherwise false for
any argument that is not a non-null object, otherwise true exactly when
key counts agree, every key of the first object exists on the second and
the property values are pairwise sameValue equal; moreover it is
reflexive, two one-key records with equal values compare true, a record
with an extra key compares false, and two equal two-element arrays
compare true. -/
theorem shallowEqual_spec_and_examples :
    (∀ (h : Heap) (a b : JSVal), shallowEqual h a b = shallowEqualSpec h a b) ∧
    (∀ (h : Heap) (x : JSVal), shallowEqual h x x = true) ∧
    shallowEqual exHeap (.obj 0) (.obj 1) = true ∧
    shallowEqual exHeap (.obj 0) (.obj 2) = false ∧
    shallowEqual exHeap (.obj 3) (.obj 4) = true := by
  refine ⟨shallowEqual_eq_spec, fun h x => ?_, by decide, by decide, by decide⟩
  simp [shallowEqual, is_refl]

/-- C9: the equality primitive is of objectIs.ts implements exactly the
ECMAScript SameValue algorithm: strict equality except that the two
signed zeros are distinct and NaN equals itself.  The function is a total
Lean definition, so it is defined and throw-free on every pair of
values. -/
theorem is_implements_sameValue :
    (∀ x y : JSVal, is x y = sameValueSpec x y) ∧
    is (.num .nan) (.num .nan) = true ∧
    is (.num (.fin 0)) (.num .negZero) = false ∧
    is (.num .negZero) (.num (.fin 0)) = false := by
  refine ⟨is_eq_sameValue, by decide, by decide, by decide⟩

/-- State of the Slice class of slice.ts: a version counter and the
registered listeners.  The JavaScript Set of listener callbacks is
modelled as a list of listener identifiers in insertion order that never
holds duplicates. -/
structure Slice where
  version : Nat
  listeners : List Nat
  deriving DecidableEq, Repr

/-- A freshly constructed Slice: version 0 and no listeners. -/
def Slice.new : Slice := ⟨0, []⟩

/-- Transcription of Slice.subscribe up to the returned closure: Set.add
of the listener, a no-op when the listener is already present. -/
def Slice.subscribe (s : Slice) (l : Nat) : Slice :=
  if l ∈ s.listeners then s else ⟨s.version, s.listeners ++ [l]⟩

/-- Action of the closure returned by Slice.subscribe: Set.delete of that
exact listener reference. -/
def Slice.unsubscribe (s : Slice) (l : Nat) : Slice :=
  ⟨s.version, s.listeners.erase l⟩

/-- Body commands a listener callback may execute against its slice: call
update reentrantly, or do something unrelated to the slice. -/
inductive Cmd where
  | doUpdate
  | noop
  deriving DecidableEq, Repr

/-- Observable events of a run: the version counter was incremented to v,
or listener l was invoked while the slice version read v. -/
inductive Ev where
  | inc (v : Nat)
  | invoke (l : Nat) (v : Nat)
  deriving DecidableEq, Repr

/-- Run of the body of one listener; a reentrant update is interpreted by
the function upd supplied by the caller. -/
def notifyBody (upd : Slice → Slice × List Ev) : List Cmd → Slice → Slice × List Ev
  | [], s => (s, [])
  | Cmd.noop :: cs, s => notifyBody upd cs s
  | Cmd.doUpdate :: cs, s =>
    let p := upd s
    let q := notifyBody upd cs p.1
    (q.1, p.2 ++ q.2)

/-- Notification pass of Slice.update: the listeners captured at the call
are invoked in insertion order; each invocation first observes the current
slice version and then runs its body under the environment env. -/
def notifyAll (env : Nat → List Cmd) (upd : Slice → Slice × List Ev) :
    List Nat → Slice → Slice × List Ev
  | [], s => (s, [])
  | l :: ls, s =>
    let p := notifyBody upd (env l) s
    let q := notifyAll env upd ls p.1
    (q.1, (Ev.invoke l s.version :: p.2) ++ q.2)

/-- Transcription of Slice.update under a listener environment: the
version is incremented first, then every registered listener is invoked.
The fuel bounds the reentrancy depth, exactly as the JavaScript call
stack does; when it runs out the increment still happens but no listener
is notified. -/
def Slice.runUpdate (env : Nat → List Cmd) : Nat → Slice → Slice × List Ev
  | 0, s => (⟨s.version + 1, s.listeners⟩, [Ev.inc (s.version + 1)])
  | f + 1, s =>
    let s1 : Slice := ⟨s.version + 1, s.listeners⟩
    let p := notifyAll env (Slice.runUpdate env f) s1.listeners s1
    (p.1, Ev.inc s1.version :: p.2)

/-- Consistency of an event trace against a running version: every inc
event raises the running version by exactly one, and every invoke event
records exactly the running version at its point in the trace. -/
def consistent : Nat → List Ev → Bool
  | _, [] => true
  | v, Ev.inc w :: t => w == v + 1 && consistent w t
  | v, Ev.invoke _ w :: t => w == v && consistent v t

/-- Number of version increments in a trace. -/
def countIncs : List Ev → Nat
  | [] => 0
  | Ev.inc _ :: t => countIncs t + 1
  | Ev.invoke _ _ :: t => countIncs t

/-- Number of invocations of a given listener in a trace. -/
def countInvoke (l : Nat) : List Ev → Nat
  | [] => 0
  | Ev.invoke m _ :: t => (if m = l then 1 else 0) + countInvoke l t
  | Ev.inc _ :: t => countInvoke l t

/-- Consistent traces concatenate when the second starts at the running
version reached by the first. -/
theorem consistent_append (t1 t2 : List Ev) (v : Nat)
    (h1 : consistent v t1 = true) (h2 : consistent (v + countIncs t1) t2 = true) :
    consistent v (t1 ++ t2) = true := by
  induction t1 generalizing v with
  | nil => simpa using h2
  | cons e t ih =>
    cases e with
    | inc w =>
      simp [consistent] at h1 ⊢
      refine ⟨h1.1, ih _ h1.2 ?_⟩
      have : w + countIncs t = v + countIncs (Ev.inc w :: t) := by
        simp [countIncs, h1.1]; omega
      simpa [this] using h2
    | invoke l w =>
      simp [consistent] at h1 ⊢
      exact ⟨h1.1, ih _ h1.2 (by simpa [countIncs] using h2)⟩

/-- Counting increments distributes over trace concatenation. -/
theorem countIncs_append (t1 t2 : List Ev) :
    countIncs (t1 ++ t2) = countIncs t1 + countIncs t2 := by
  induction t1 with
  | nil => simp [countIncs]
  | cons e t ih =>
    cases e with
    | inc v => simp [countIncs, ih]; omega
    | invoke l v => simp [countIncs, ih]

/-- Counting invocations distributes over trace concatenation. -/
theorem countInvoke_append (l : Nat) (t1 t2 : List Ev) :
    countInvoke l (t1 ++ t2) = countInvoke l t1 + countInvoke l t2 := by
  induction t1 with
  | nil => simp [countInvoke]
  | cons e t ih =>
    cases e with
    | inc v => simp [countInvoke, ih]
    | invoke m v => simp [countInvoke, ih]; omega

/-- Soundness of one update interpretation: it advances the version by
exactly the number of increments of its trace, its trace is consistent
with the starting version, it leaves the listener set alone and it
performs at least one increment. -/
def updOK (upd : Slice → Slice × List Ev) : Prop :=
  ∀ s : Slice,
    (upd s).1.version = s.version + countIncs (upd s).2 ∧
    consistent s.version (upd s).2 = true ∧
    (upd s).1.listeners = s.listeners ∧
    1 ≤ countIncs (upd s).2

/-- Running one listener body preserves soundness: version tracks the
increments of the produced trace, the trace is consistent, listeners are
untouched. -/
theorem notifyBody_ok (upd : Slice → Slice × List Ev) (hu : updOK upd)
    (cs : List Cmd) (s : Slice) :
    (notifyBody upd cs s).1.version = s.version + countIncs (notifyBody upd cs s).2 ∧
    consistent s.version (notifyBody upd cs s).2 = true ∧
    (notifyBody upd cs s).1.listeners = s.listeners := by
  induction cs generalizing s with
  | nil => simp [notifyBody, countIncs, consistent]
  | cons c cs ih =>
    cases c with
    | noop => simpa [notifyBody] using ih s
    | doUpdate =>
      have hp := hu s
      have hq := ih (upd s).1
      refine ⟨?_, ?_, ?_⟩
      · simp [notifyBody, countIncs_append]
        omega
      · simp only [notifyBody]
        exact consistent_append _ _ _ hp.2.1 (by rw [← hp.1]; exact hq.2.1)
      · simp [notifyBody, hq.2.2, hp.2.2.1]

/-- Running the notification pass over any listener list preserves
soundness of version, consistency and the listener set. -/
theorem notifyAll_ok (env : Nat → List Cmd) (upd : Slice → Slice × List Ev)
    (hu : updOK upd) (ls : List Nat) (s : Slice) :
    (notifyAll env upd ls s).1.version = s.version + countIncs (notifyAll env upd ls s).2 ∧
    consistent s.version (notifyAll env upd ls s).2 = true ∧
    (notifyAll env upd ls s).1.listeners = s.listeners := by
  induction ls generalizing s with
  | nil => simp [notifyAll, countIncs, consistent]
  | cons l ls ih =>
    have hp := notifyBody_ok upd hu (env l) s
    have hq := ih (notifyBody upd (env l) s).1
    refine ⟨?_, ?_, ?_⟩
    · simp [notifyAll, countIncs_append, countIncs]
      omega
    · simp only [notifyAll, List.cons_append, consistent, beq_self_eq_true, Bool.true_and]
      exact consistent_append _ _ _ hp.2.1 (by rw [← hp.1]; exact hq.2.1)
    · simp [notifyAll, hq.2.2, hp.2.2]

/-- Every run of Slice.update is sound: the version grows by exactly the
number of increments of the trace, the trace is consistent with the
version before the call, the listener set is unchanged and the call
itself contributes at least one increment. -/
theorem runUpdate_ok (env : Nat → List Cmd) (fuel : Nat) :
    updOK (Slice.runUpdate env fuel) := by
  induction fuel with
  | zero =>
    intro s
    simp [Slice.runUpdate, countIncs, consistent]
  | succ f ih =>
    intro s
    have h := notifyAll_ok env (Slice.runUpdate env f) ih s.listeners ⟨s.version + 1, s.listeners⟩
    refine ⟨?_, ?_, ?_, ?_⟩
    · have h1 := h.1
      simp only [] at h1
      simp [Slice.runUpdate, countIncs]
      omega
    · simp only [Slice.runUpdate, consistent, beq_self_eq_true, Bool.true_and]
      exact h.2.1
    · simpa [Slice.runUpdate] using h.2.2
    · simp [Slice.runUpdate, countIncs]

/-- In a consistent trace every recorded invocation version is at least
the starting version. -/
theorem consistent_invoke_ge (t : List Ev) (v : Nat)
    (hc : consistent v t = true) :
    ∀ l w, Ev.invoke l w ∈ t → v ≤ w := by
  induction t generalizing v with
  | nil => intro l w hw; simp at hw
  | cons e t ih =>
    cases e with
    | inc u =>
      intro l w hw
      simp [consistent] at hc
      rcases List.mem_cons.mp hw with h | h
      · cases h
      · have := ih _ hc.2 l w h
        omega
    | invoke m u =>
      intro l w hw
      simp [consistent] at hc
      rcases List.mem_cons.mp hw with h | h
      · cases h; omega
      · exact ih _ hc.2 l w h

/-- C1: a fresh Slice has version 0; for every environment of (possibly
reentrantly updating) listener bodies, every reentrancy budget and every
starting state, the trace of Slice.update is consistent (each update call
in it, the reentrant ones included, increments the version by exactly one
and the version never decreases), the final version is the starting
version plus the number of update calls executed, the outer call itself
increments at least once so the version strictly increases, the increment
happens before any listener is invoked, and every listener invocation
observes a version that is already incremented past the starting
version. -/
theorem slice_version_monotone :
    Slice.new.version = 0 ∧
    ∀ (env : Nat → List Cmd) (fuel : Nat) (s : Slice),
      consistent s.version (Slice.runUpdate env fuel s).2 = true ∧
      (Slice.runUpdate env fuel s).1.version
        = s.version + countIncs (Slice.runUpdate env fuel s).2 ∧
      1 ≤ countIncs (Slice.runUpdate env fuel s).2 ∧
      s.version < (Slice.runUpdate env fuel s).1.version ∧
      (∃ t, (Slice.runUpdate env fuel s).2 = Ev.inc (s.version + 1) :: t) ∧
      ∀ l w, Ev.invoke l w ∈ (Slice.runUpdate env fuel s).2 → s.version + 1 ≤ w := by
  refine ⟨rfl, fun env fuel s => ?_⟩
  have h := runUpdate_ok env fuel s
  refine ⟨h.2.1, h.1, h.2.2.2, by omega, ?_, ?_⟩
  · cases fuel <;> exact ⟨_, rfl⟩
  · intro l w hw
    rcases (by cases fuel <;> exact ⟨_, rfl⟩ :
        ∃ t, (Slice.runUpdate env fuel s).2 = Ev.inc (s.version + 1) :: t) with ⟨t, ht⟩
    have hc := h.2.1
    rw [ht] at hc hw
    simp [consistent] at hc
    rcases List.mem_cons.mp hw with hh | hh
    · cases hh
    · exact consistent_invoke_ge t _ hc l w hh

/-- Witness for C1 at a concrete input: one listener, no reentrancy. -/
theorem slice_version_monotone_witness :
    consistent 0 (Slice.runUpdate (fun _ => []) 1 ⟨0, [7]⟩).2 = true ∧ 0 + 1 ≤ 1 :=
  ⟨(slice_version_monotone.2 (fun _ => []) 1 ⟨0, [7]⟩).1,
   (slice_version_monotone.2 (fun _ => []) 1 ⟨0, [7]⟩).2.2.2.2.2 7 1 (by decide)⟩

/-- Subscribe preserves the set invariant of the listener storage. -/
theorem subscribe_nodup (s : Slice) (l : Nat) (hd : s.listeners.Nodup) :
    (s.subscribe l).listeners.Nodup := by
  by_cases h : l ∈ s.listeners <;> simp [Slice.subscribe, h, List.nodup_append, hd]

/-- With every listener body trivial, the trace of one update invokes a
listener exactly as many times as it occurs in the listener list. -/
theorem countInvoke_notifyAll_noop (upd : Slice → Slice × List Ev)
    (l : Nat) (ls : List Nat) (s : Slice) :
    countInvoke l (notifyAll (fun _ => []) upd ls s).2 = ls.count l := by
  induction ls generalizing s with
  | nil => simp [notifyAll, countInvoke]
  | cons m ms ih =>
    by_cases hm : m = l
    · simp [notifyAll, notifyBody, countInvoke, countInvoke_append, ih, hm, List.count_cons]
      omega
    · simp [notifyAll, notifyBody, countInvoke, countInvoke_append, ih, hm, List.count_cons]

/-- C7: adding a listener that is already present is a no-op, so a double
subscribe equals a single one; the returned unsubscribe removes exactly
that listener reference and leaves every other listener and the version
alone; running the same unsubscribe twice equals running it once; and a
listener subscribed twice is still invoked exactly once by one update
call. -/
theorem slice_subscribe_algebra :
    (∀ (s : Slice) (l : Nat), (s.subscribe l).subscribe l = s.subscribe l) ∧
    (∀ (s : Slice) (l : Nat), s.listeners.Nodup →
      l ∉ ((s.subscribe l).unsubscribe l).listeners ∧
      (∀ m, m ≠ l →
        (m ∈ ((s.subscribe l).unsubscribe l).listeners ↔ m ∈ (s.subscribe l).listeners)) ∧
      ((s.subscribe l).unsubscribe l).version = (s.subscribe l).version) ∧
    (∀ (s : Slice) (l : Nat), s.listeners.Nodup →
      (s.unsubscribe l).unsubscribe l = s.unsubscribe l) ∧
    (∀ (s : Slice) (l : Nat) (fuel : Nat), s.listeners.Nodup →
      countInvoke l (Slice.runUpdate (fun _ => []) (fuel + 1) ((s.subscribe l).subscribe l)).2
        = 1) := by
  refine ⟨?_, ?_, ?_, ?_⟩
  · intro s l
    by_cases h : l ∈ s.listeners <;> simp [Slice.subscribe, h]
  · intro s l hd
    have hd2 : (s.subscribe l).listeners.Nodup := subscribe_nodup s l hd
    refine ⟨?_, ?_, rfl⟩
    · simp [Slice.unsubscribe]
      exact hd2.not_mem_erase
    · intro m hm
      simp [Slice.unsubscribe, hd2.mem_erase_iff, hm]
  · intro s l hd
    have h1 : l ∉ s.listeners.erase l := hd.not_mem_erase
    simp [Slice.unsubscribe, List.erase_of_not_mem h1]
  · intro s l fuel hd
    have hdd : ((s.subscribe l).subscribe l).listeners.Nodup :=
      subscribe_nodup _ l (subscribe_nodup s l hd)
    have hmem : l ∈ ((s.subscribe l).subscribe l).listeners := by
      by_cases h : l ∈ s.listeners <;> simp [Slice.subscribe, h]
    simp only [Slice.runUpdate, countInvoke, countInvoke_notifyAll_noop]
    exact List.count_eq_one_of_mem hdd hmem

/-- Witness for C7 at a concrete input: a slice already holding listener
3, with listener 5 subscribed twice. -/
theorem slice_subscribe_algebra_witness :
    ((⟨0, [3]⟩ : Slice).unsubscribe 5).unsubscribe 5 = (⟨0, [3]⟩ : Slice).unsubscribe 5 ∧
    countInvoke 5
      (Slice.runUpdate (fun _ => []) 1 (((⟨0, [3]⟩ : Slice).subscribe 5).subscribe 5)).2 = 1 :=
  ⟨slice_subscribe_algebra.2.2.1 ⟨0, [3]⟩ 5 (by decide),
   slice_subscribe_algebra.2.2.2 ⟨0, [3]⟩ 5 0 (by decide)⟩

/-- Scope state of useFactory from useFactory.ts: the ref with its current
field (none is the JavaScript null, which is both the not-yet-created
marker and a possible source value) and its optional destroy, plus an
instrumentation counter of how many times init has run.  The init
callback is allowed to return a different pair at each invocation, so it
is indexed by the invocation number. -/
structure FactorySt (α δ : Type) where
  current : Option α
  destroy : Option δ
  initCount : Nat
  deriving Repr, DecidableEq

/-- A scope before any realization: the ref current field holds the null
marker and no destroy is recorded. -/
def FactorySt.fresh (α δ : Type) : FactorySt α δ := ⟨none, none, 0⟩

/-- Transcription of the lazyInit closure of useFactory: when the ref
current field is strictly equal to null, run init, destructure its pair
into the current and destroy fields, and return the (new) current
field; otherwise return the cached current field untouched. -/
def lazyInit (init : Nat → Option α × Option δ) (s : FactorySt α δ) :
    Option α × FactorySt α δ :=
  match s.current with
  | none =>
    ((init s.initCount).1, ⟨(init s.initCount).1, (init s.initCount).2, s.initCount + 1⟩)
  | some a => (some a, s)

/-- Iterated lazyInit calls, collecting the value returned by each call in
order. -/
def lazyIter (init : Nat → Option α × Option δ) :
    Nat → FactorySt α δ → List (Option α) × FactorySt α δ
  | 0, s => ([], s)
  | n + 1, s =>
    let p := lazyInit init s
    let q := lazyIter init n p.2
    (p.1 :: q.1, q.2)

/-- Once the ref holds a non-null source, every later lazyInit call hits
the cache and the scope state is frozen. -/
theorem lazyIter_cached (init : Nat → Option α × Option δ) (a : α)
    (d : Option δ) (c : Nat) :
    ∀ n, (lazyIter init n ⟨some a, d, c⟩).1 = List.replicate n (some a) ∧
      (lazyIter init n ⟨some a, d, c⟩).2 = ⟨some a, d, c⟩ := by
  intro n
  induction n with
  | zero => simp [lazyIter]
  | succ m ih => simp [lazyIter, lazyInit, ih, List.replicate_succ]

/-- C2 counterexample: the claim as stated quantifies over arbitrary init
callbacks, but an init that returns a null source defeats the cache
guard, so two lazyInit calls run init twice; hence it is false that init
runs exactly once on every dependency-stable scope. -/
theorem lazy_once_cex :
    ¬ ∀ (init : Nat → Option Unit × Option Unit) (n : Nat), 1 ≤ n →
      (lazyIter init n (FactorySt.fresh Unit Unit)).2.initCount = 1 := by
  intro h
  have := h (fun _ => (none, none)) 2 (by omega)
  simp [lazyIter, lazyInit, FactorySt.fresh] at this

/-- C2 amended: on a dependency-stable scope whose init returns a
non-null source value on its first invocation, the first lazyInit call
runs init, stores the returned source and optional destroy on the ref and
returns the source; every later call returns the cached source without
running init again, so after any positive number of calls init has run
exactly once. -/
theorem lazy_once (init : Nat → Option α × Option δ) (a : α)
    (h : (init 0).1 = some a) (n : Nat) (hn : 1 ≤ n) :
    (lazyIter init n (FactorySt.fresh α δ)).1 = List.replicate n (some a) ∧
    (lazyIter init n (FactorySt.fresh α δ)).2.current = some a ∧
    (lazyIter init n (FactorySt.fresh α δ)).2.destroy = (init 0).2 ∧
    (lazyIter init n (FactorySt.fresh α δ)).2.initCount = 1 := by
  obtain ⟨m, rfl⟩ : ∃ m, n = m + 1 := ⟨n - 1, by omega⟩
  have hc := lazyIter_cached init a (init 0).2 1 m
  constructor
  · simp [lazyIter, lazyInit, FactorySt.fresh, h, List.replicate_succ]
    exact hc.1
  · simp [lazyIter, lazyInit, FactorySt.fresh, h, hc.2]

/-- Witness for the amended C2 at a concrete input: a constant init
producing source 42 with a destroy token, called three times. -/
theorem lazy_once_witness :
    (lazyIter (fun _ => (some 42, some 0)) 3 (FactorySt.fresh Nat Nat)).1
        = List.replicate 3 (some 42) ∧
    (lazyIter (fun _ => (some 42, some 0)) 3 (FactorySt.fresh Nat Nat)).2.initCount = 1 := by
  have h := lazy_once (fun _ => ((some 42 : Option Nat), (some 0 : Option Nat))) 42 rfl 3
    (by omega)
  exact ⟨h.1, h.2.2.2⟩

/-- C10: the not-yet-created marker is null itself and lazyInit caches
only under the guard that the ref current field is null; consequently,
for an init whose returned source value is always null, every one of n
successive lazyInit calls re-invokes init (the counter grows by n) and
the ref still holds the null marker afterwards. -/
theorem lazy_null_reinvokes (init : Nat → Option α × Option δ)
    (h : ∀ k, (init k).1 = none) (n : Nat) (s : FactorySt α δ)
    (hs : s.current = none) :
    (lazyIter init n s).2.initCount = s.initCount + n ∧
    (lazyIter init n s).2.current = none := by
  induction n generalizing s with
  | zero => simp [lazyIter, hs]
  | succ m ih =>
    have step := ih ⟨(init s.initCount).1, (init s.initCount).2, s.initCount + 1⟩ (h _)
    constructor
    · simp [lazyIter, lazyInit, hs, step.1]
      omega
    · simp [lazyIter, lazyInit, hs, step.2]

/-- Witness for C10 at a concrete input: an init always returning the
null source, called twice on a fresh scope. -/
theorem lazy_null_reinvokes_witness :
    (lazyIter (fun _ => ((none : Option Unit), (none : Option Unit))) 2
        (FactorySt.fresh Unit Unit)).2.initCount = 0 + 2 :=
  (lazy_null_reinvokes (fun _ => (none, none)) (fun _ => rfl) 2
    (FactorySt.fresh Unit Unit) rfl).1

/-- Data captured by the composed destroy closure that the with-contract
useSource builds and hands to useFactory: the optional unsubscribe
returned by the contract, the optional destroy returned by init, and the
source both closures capture. -/
structure Teardown (α δ : Type) where
  unsub : Option Unit
  destroy : Option δ
  src : Option α
  deriving Repr

/-- Scope state of the with-contract useSource and useAtomicSource (the
realization code of the two files is identical): the ref current field,
the stored composed teardown (present exactly when a realization
happened) and the init invocation counter. -/
structure CScope (α δ : Type) where
  current : Option α
  teardown : Option (Teardown α δ)
  initCount : Nat

/-- Realization events: init ran (with its invocation number), or the
contract was called with the freshly created source and an onChange
callback. -/
inductive FEv (α : Type) where
  | initCalled (k : Nat)
  | contractCalled (src : Option α) (onChange : Slice → Slice)

/-- Transcription of the lazy realization step shared by
withContract/useSource/client.ts and withContract/useAtomicSource/client.ts:
under the null guard, run init, then immediately call the contract on the
new source passing the update method of the shared slice, and store the
composed teardown; outside the guard return the cache and emit nothing.
The contract is modelled by the value it returns (an optional
unsubscribe); the function passed as onChange is the state transformer of
Slice.update under the ambient listener environment. -/
def contractLazyInit (init : Nat → Option α × Option δ)
    (contractRet : Option α → Option Unit) (env : Nat → List Cmd) (fuel : Nat)
    (s : CScope α δ) : Option α × CScope α δ × List (FEv α) :=
  match s.current with
  | none =>
    ((init s.initCount).1,
     ⟨(init s.initCount).1,
      some ⟨contractRet (init s.initCount).1, (init s.initCount).2, (init s.initCount).1⟩,
      s.initCount + 1⟩,
     [FEv.initCalled s.initCount,
      FEv.contractCalled (init s.initCount).1 (fun sl => (Slice.runUpdate env fuel sl).1)])
  | some a => (some a, s, [])

/-- Iterated with-contract lazyInit calls, concatenating the emitted
event traces in order. -/
def contractLazyIter (init : Nat → Option α × Option δ)
    (contractRet : Option α → Option Unit) (env : Nat → List Cmd) (fuel : Nat) :
    Nat → CScope α δ → CScope α δ × List (FEv α)
  | 0, s => (s, [])
  | n + 1, s =>
    let p := contractLazyInit init contractRet env fuel s
    let q := contractLazyIter init contractRet env fuel n p.2.1
    (q.1, p.2.2 ++ q.2)

/-- A realized with-contract scope emits no further events. -/
theorem contractLazyIter_cached (init : Nat → Option α × Option δ)
    (contractRet : Option α → Option Unit) (env : Nat → List Cmd) (fuel : Nat)
    (a : α) (td : Option (Teardown α δ)) (c : Nat) (n : Nat) :
    contractLazyIter init contractRet env fuel n ⟨some a, td, c⟩ = (⟨some a, td, c⟩, []) := by
  induction n with
  | zero => rfl
  | succ m ih => simp [contractLazyIter, contractLazyInit, ih]

/-- C3: on every realization of a source in the contract family (the
general and atomic shapes share this code), the caller-supplied contract
is invoked exactly once, synchronously, immediately after init returns
and inside the same lazy-realization step, and the onChange it receives
is the update of the shared slice; moreover, over any positive number of
lazyInit calls on a scope whose init yields a non-null source, the entire
event history is exactly one init event directly followed by that one
contract event. -/
theorem contract_called_once (init : Nat → Option α × Option δ)
    (contractRet : Option α → Option Unit) (env : Nat → List Cmd) (fuel : Nat)
    (s : CScope α δ) (hs : s.current = none) (a : α) (ha : (init 0).1 = some a)
    (n : Nat) (hn : 1 ≤ n) :
    (contractLazyInit init contractRet env fuel s).2.2
      = [FEv.initCalled s.initCount,
         FEv.contractCalled (init s.initCount).1 (fun sl => (Slice.runUpdate env fuel sl).1)] ∧
    (contractLazyIter init contractRet env fuel n ⟨none, none, 0⟩).2
      = [FEv.initCalled 0,
         FEv.contractCalled (some a) (fun sl => (Slice.runUpdate env fuel sl).1)] := by
  constructor
  · rcases s with ⟨cur, td, c⟩
    cases cur with
    | none => rfl
    | some _ => cases hs
  · obtain ⟨m, rfl⟩ : ∃ m, n = m + 1 := ⟨n - 1, by omega⟩
    simp [contractLazyIter, contractLazyInit, ha,
      contractLazyIter_cached init contractRet env fuel a _ 1 m]

/-- Witness for C3 at a concrete input: constant init yielding source 9,
a contract returning an unsubscribe, two lazyInit calls. -/
theorem contract_called_once_witness :
    (contractLazyIter (fun _ => ((some 9 : Option Nat), (none : Option Nat)))
        (fun _ => some ()) (fun _ => []) 1 2 ⟨none, none, 0⟩).2
      = [FEv.initCalled 0,
         FEv.contractCalled (some 9) (fun sl => (Slice.runUpdate (fun _ => []) 1 sl).1)] :=
  (contract_called_once (fun _ => (some 9, none)) (fun _ => some ()) (fun _ => []) 1
    ⟨none, none, 0⟩ rfl 9 rfl 2 (by omega)).2

/-- Teardown events: the unsubscribe returned by the contract ran, or the
caller-supplied destroy ran on the captured source. -/
inductive TEv (α δ : Type) where
  | unsubCalled
  | destroyCalled (src : Option α) (d : δ)
  deriving Repr

/-- Transcription of the composed destroy closure of the with-contract
useSource: first the optional chaining call of unsubscribe, then the
optional chaining call of destroy on the captured source; either part is
a no-op when absent. -/
def runTeardown (td : Teardown α δ) : List (TEv α δ) :=
  (match td.unsub with
   | some _ => [TEv.unsubCalled]
   | none => []) ++
  (match td.destroy with
   | some d => [TEv.destroyCalled td.src d]
   | none => [])

/-- Transcription of the useFactory effect cleanup: the optional chaining
call of the stored ref destroy, then the ref current field is reset to
the null marker. -/
def scopeTeardown (s : CScope α δ) : CScope α δ × List (TEv α δ) :=
  (⟨none, s.teardown, s.initCount⟩,
   match s.teardown with
   | some td => runTeardown td
   | none => [])

/-- C4: in every with-contract scope teardown the unsubscribe returned by
the contract runs strictly before the caller-supplied destroy (destroy is
never called before unsubscribe); both parts tolerate absence, each
absent part being a no-op, as the complete case enumeration of the
composed closure shows; a scope that was never realized tears down to an
empty event list; and teardown always resets the ref current field to the
null marker. -/
theorem teardown_unsub_before_destroy :
    (∀ (α δ : Type) (td : Teardown α δ) (i j : Nat) (a : Option α) (d : δ),
      (runTeardown td)[i]? = some TEv.unsubCalled →
      (runTeardown td)[j]? = some (TEv.destroyCalled a d) → i < j) ∧
    (∀ (α δ : Type) (x : Option α) (d : δ),
      runTeardown (⟨some (), some d, x⟩ : Teardown α δ)
          = [TEv.unsubCalled, TEv.destroyCalled x d] ∧
      runTeardown (⟨none, some d, x⟩ : Teardown α δ) = [TEv.destroyCalled x d] ∧
      runTeardown (⟨some (), none, x⟩ : Teardown α δ) = [TEv.unsubCalled] ∧
      runTeardown (⟨none, none, x⟩ : Teardown α δ) = []) ∧
    (∀ (α δ : Type) (c : Nat),
      scopeTeardown (⟨none, none, c⟩ : CScope α δ) = (⟨none, none, c⟩, [])) ∧
    (∀ (α δ : Type) (s : CScope α δ), (scopeTeardown s).1.current = none) := by
  refine ⟨?_, ?_, ?_, ?_⟩
  · intro α δ td i j a d hi hj
    rcases td with ⟨u, d0, x⟩
    cases u <;> cases d0 <;> simp [runTeardown] at hi hj
    · exfalso
      cases i with
      | zero => simp at hi
      | succ n => simp at hi
    · exfalso
      cases j with
      | zero => simp at hj
      | succ n => simp at hj
    · have hi2 : i = 0 := by
        cases i with
        | zero => rfl
        | succ n =>
          cases n with
          | zero => simp at hi
          | succ m => simp at hi
      have hj2 : j = 1 := by
        cases j with
        | zero => simp at hj
        | succ n =>
          cases n with
          | zero => rfl
          | succ m => simp at hj
      omega
  · intro α δ x d
    exact ⟨rfl, rfl, rfl, rfl⟩
  · intro α δ c
    rfl
  · intro α δ s
    rfl

/-- Witness for C4 at a concrete input: both unsubscribe and destroy
present; the unsubscribe at index 0 precedes the destroy at index 1. -/
theorem teardown_unsub_before_destroy_witness : 0 < 1 :=
  teardown_unsub_before_destroy.1 Nat Nat ⟨some (), some 4, some 2⟩ 0 1 (some 2) 4 rfl rfl

/-- State of the memoized getter ref of the with-contract useSnapshot:
the version recorded at the last read, the cached snapshot, and an
instrumentation counter of how many times the getter has invoked
getSnapshot. -/
structure GetterRef (Snap : Type) where
  lastReadVersion : Nat
  snapshot : Snap
  derivations : Nat
  deriving Repr, DecidableEq

/-- Transcription of the getter closure of the with-contract useSnapshot:
when the recorded version differs from the current slice version, derive
a new snapshot from the previous one and record the slice version, else
return the cached snapshot untouched. -/
def getterCall (gs : Snap → Snap) (sliceVersion : Nat) (r : GetterRef Snap) :
    Snap × GetterRef Snap :=
  if r.lastReadVersion ≠ sliceVersion then
    (gs r.snapshot, ⟨sliceVersion, gs r.snapshot, r.derivations + 1⟩)
  else (r.snapshot, r)

/-- State of the memoized getter of the with-subscription useSnapshot:
only the previously returned snapshot (initially null) and the
instrumentation counter; no version is recorded. -/
structure MemoGetter (Snap : Type) where
  snapshot : Option Snap
  derivations : Nat
  deriving Repr, DecidableEq

/-- Transcription of getMemoizedSnapshot of the with-subscription
useSnapshot: every call invokes getSnapshot on the previous snapshot and
stores the result. -/
def memoGetterCall (gs : Option Snap → Snap) (r : MemoGetter Snap) :
    Snap × MemoGetter Snap :=
  (gs r.snapshot, ⟨some (gs r.snapshot), r.derivations + 1⟩)

/-- Argument triple handed to useSyncExternalStore. -/
structure SyncExternalStoreCall (Sub Get : Type) where
  subscribeArg : Sub
  getSnapshotArg : Get
  getServerSnapshotArg : Get

/-- Transcription of the useSyncExternalStore invocation of the
with-contract useSnapshot: the subscribe callback delegates to the slice
subscribe, and the single memoized getter fills both snapshot slots. -/
def contractStoreCall (gs : Snap → Snap) :
    SyncExternalStoreCall (Slice → Nat → Slice) (Nat → GetterRef Snap → Snap × GetterRef Snap) :=
  ⟨fun sl l => sl.subscribe l, getterCall gs, getterCall gs⟩

/-- Transcription of the useSyncExternalStore invocation of the
with-subscription useSnapshot: the memoized subscribe callback is passed
through, and the single memoized getter fills both snapshot slots. -/
def subscriptionStoreCall (σ : Type) (sub : σ) (gs : Option Snap → Snap) :
    SyncExternalStoreCall σ (MemoGetter Snap → Snap × MemoGetter Snap) :=
  ⟨sub, memoGetterCall gs, memoGetterCall gs⟩

/-- C5 counterexample: in the with-subscription general family the getter
invokes getSnapshot on every call.  With a constant getSnapshot and no
version change anywhere, two consecutive getter calls perform two
derivations, where the claimed version-gated memoization would perform
one. -/
theorem memoized_getter_cex :
    (memoGetterCall (fun _ => (0 : Nat))
        (memoGetterCall (fun _ => (0 : Nat)) ⟨none, 0⟩).2).2.derivations = 2 ∧
    (2 : Nat) ≠ 1 := by
  exact ⟨rfl, by omega⟩

/-- C5 amended: in the with-contract general family the memoized getter
re-derives only when its recorded version differs from the current slice
version, records the new version, and two consecutive calls with no
intervening version change return the same snapshot with no second
derivation; in the with-subscription general family the getter instead
invokes getSnapshot on every call, feeding it the previously returned
snapshot; in both families the very same memoized getter is supplied as
the client and the server snapshot argument of useSyncExternalStore. -/
theorem memoized_getter_version_gate :
    (∀ (Snap : Type) (gs : Snap → Snap) (v : Nat) (r : GetterRef Snap),
      r.lastReadVersion = v → getterCall gs v r = (r.snapshot, r)) ∧
    (∀ (Snap : Type) (gs : Snap → Snap) (v : Nat) (r : GetterRef Snap),
      r.lastReadVersion ≠ v →
        (getterCall gs v r).1 = gs r.snapshot ∧
        (getterCall gs v r).2 = ⟨v, gs r.snapshot, r.derivations + 1⟩) ∧
    (∀ (Snap : Type) (gs : Snap → Snap) (v : Nat) (r : GetterRef Snap),
      (getterCall gs v (getterCall gs v r).2).1 = (getterCall gs v r).1 ∧
      (getterCall gs v (getterCall gs v r).2).2.derivations
        = (getterCall gs v r).2.derivations) ∧
    (∀ (Snap : Type) (gs : Snap → Snap),
      (contractStoreCall gs).getSnapshotArg
        = (contractStoreCall gs).getServerSnapshotArg) ∧
    (∀ (Snap σ : Type) (sub : σ) (gs : Option Snap → Snap),
      (subscriptionStoreCall σ sub gs).getSnapshotArg
        = (subscriptionStoreCall σ sub gs).getServerSnapshotArg) ∧
    (∀ (Snap : Type) (gs : Option Snap → Snap) (r : MemoGetter Snap),
      (memoGetterCall gs r).1 = gs r.snapshot ∧
      (memoGetterCall gs r).2.derivations = r.derivations + 1) := by
  refine ⟨?_, ?_, ?_, fun _ _ => rfl, fun _ _ _ _ => rfl, fun _ _ _ => ⟨rfl, rfl⟩⟩
  · intro Snap gs v r h
    simp [getterCall, h]
  · intro Snap gs v r h
    simp [getterCall, h]
  · intro Snap gs v r
    by_cases h : r.lastReadVersion = v <;> simp [getterCall, h]

/-- Witness for the amended C5 at concrete inputs: a getter ref at
version 3 queried at slice version 3 (cache hit) and at slice version 4
(one derivation). -/
theorem memoized_getter_version_gate_witness :
    getterCall (fun n => n + 1) 3 (⟨3, 10, 0⟩ : GetterRef Nat) = (10, ⟨3, 10, 0⟩) ∧
    (getterCall (fun n => n + 1) 4 (⟨3, 10, 0⟩ : GetterRef Nat)).1 = 11 :=
  ⟨memoized_getter_version_gate.1 Nat (fun n => n + 1) 3 ⟨3, 10, 0⟩ rfl,
   (memoized_getter_version_gate.2.1 Nat (fun n => n + 1) 4 ⟨3, 10, 0⟩ (by decide)).1⟩

/-- Render-phase state of the with-contract atomic useSnapshot: the
snapshot computed by the useState initializer and the slice version read
during render. -/
structure AtomicRender (Snap : Type) where
  snapshot : Snap
  initialVersion : Nat
  deriving Repr, DecidableEq

/-- Render phase of the with-contract atomic useSnapshot: the initial
snapshot is getSnapshot at null and the current slice version is
recorded. -/
def atomicContractRender (gs : Option Snap → Snap) (sl : Slice) : AtomicRender Snap :=
  ⟨gs none, sl.version⟩

/-- Transcription of the layout effect of the with-contract atomic
useSnapshot: when the version recorded during render differs from the
slice version at subscription time, one synchronous functional setState
re-derives the snapshot (through the derivation valid at that moment)
before the slice subscription is registered. -/
def atomicContractLayout (gsNow : Option Snap → Snap) (me : Nat)
    (st : AtomicRender Snap) (sl : Slice) : AtomicRender Snap × Slice :=
  (if st.initialVersion ≠ sl.version then ⟨gsNow (some st.snapshot), st.initialVersion⟩
   else st,
   sl.subscribe me)

/-- Transcription of the layout effect of the with-subscription atomic
useSnapshot: when the snapshot derivable now is no longer is-equal to the
rendered one, one synchronous reducer dispatch recomputes it before
subscribing. -/
def atomicSubLayout (gsNow : Option JSVal → JSVal) (snapshot : JSVal) : JSVal :=
  if !is snapshot (gsNow (some snapshot)) then gsNow (some snapshot) else snapshot

/-- C6: in both atomic families a change that happens between the render
phase and the subscribing layout effect forces exactly one synchronous
recompute before the component is caught up.  With-contract shape: if the
slice version moved between render and layout, the committed snapshot is
the current derivation applied to the rendered snapshot, and the
subscription is established in the same step; if the version did not
move, the rendered snapshot stands.  With-subscription shape: if the
derivable snapshot is no longer is-equal to the rendered one, the
committed snapshot is the current derivation, else the rendered snapshot
stands. -/
theorem atomic_presubscription_reconciliation :
    (∀ (Snap : Type) (gsRender gsNow : Option Snap → Snap) (slR slL : Slice) (me : Nat),
      slR.version ≠ slL.version →
        (atomicContractLayout gsNow me (atomicContractRender gsRender slR) slL).1.snapshot
          = gsNow (some (gsRender none)) ∧
        me ∈ (atomicContractLayout gsNow me (atomicContractRender gsRender slR) slL).2.listeners) ∧
    (∀ (Snap : Type) (gsRender gsNow : Option Snap → Snap) (slR slL : Slice) (me : Nat),
      slR.version = slL.version →
        (atomicContractLayout gsNow me (atomicContractRender gsRender slR) slL).1.snapshot
          = gsRender none) ∧
    (∀ (gsNow : Option JSVal → JSVal) (snap : JSVal),
      is snap (gsNow (some snap)) = false → atomicSubLayout gsNow snap = gsNow (some snap)) ∧
    (∀ (gsNow : Option JSVal → JSVal) (snap : JSVal),
      is snap (gsNow (some snap)) = true → atomicSubLayout gsNow snap = snap) := by
  refine ⟨?_, ?_, ?_, ?_⟩
  · intro Snap gsRender gsNow slR slL me h
    constructor
    · simp [atomicContractLayout, atomicContractRender, h]
    · by_cases hm : me ∈ slL.listeners <;> simp [atomicContractLayout, Slice.subscribe, hm]
  · intro Snap gsRender gsNow slR slL me h
    simp [atomicContractLayout, atomicContractRender, h]
  · intro gsNow snap h
    simp [atomicSubLayout, h]
  · intro gsNow snap h
    simp [atomicSubLayout, h]

/-- Witness for C6 at concrete inputs: the slice version moved from 0 to
1 between render and layout, and a with-subscription snapshot that is no
longer is-equal to the current derivation. -/
theorem atomic_presubscription_reconciliation_witness :
    (atomicContractLayout (fun _ => (5 : Nat)) 2
        (atomicContractRender (fun _ => 4) ⟨0, []⟩) ⟨1, []⟩).1.snapshot = 5 ∧
    atomicSubLayout (fun _ => .num (.fin 1)) (.num (.fin 0)) = .num (.fin 1) :=
  ⟨(atomic_presubscription_reconciliation.1 Nat (fun _ => 4) (fun _ => 5)
      ⟨0, []⟩ ⟨1, []⟩ 2 (by decide)).1,
   atomic_presubscription_reconciliation.2.2.1 (fun _ => .num (.fin 1)) (.num (.fin 0))
     (by decide)⟩

end UseMutableSource
